import Mathlib

/-!
# Verification of the dynamic-installer core (`src/index.ts`)

Shallow embedding of the TypeScript module that validates dependency
names and option tokens, builds `npm install` command strings, runs them
through a child process, and aggregates per-dependency results.

Modelling conventions:
* JavaScript strings are Lean `String`s; the regular expressions of the
  source are translated into decidable character-level predicates.
* The `exec` callback of Node.js is modelled by an oracle
  `ExecEnv : String → ExecOutcome` giving, for each command string, the
  error (if any), the standard output and the standard error the child
  process would report.  `error.message` is modelled as the `String`
  carried by the `error : Option String` field.
* The mutable `logs : string[]` array is threaded explicitly; `console.log`
  (the only effect of `verbose`) is not observable in the embedding, so
  `verbose` is threaded but has no effect on the returned data.
* The TypeScript non-null assertion `validDepOptions!` together with the
  array spread would throw at runtime if the value were `null`; the
  embedding makes that branch an explicit `Except.error`, so that its
  unreachability can be proved rather than assumed.
* As a trace of the process boundary, the loop also returns the list of
  command strings passed to `exec`, in spawn order.
-/

namespace DynamicInstaller

/-- One character of the class of `PACKAGE_NAME_REGEX` (src/index.ts
line 51): `@`, ASCII letters, digits, dot, underscore, slash, hyphen, in
the order the source writes the class. -/
def isPackageNameChar (c : Char) : Bool :=
  c = '@' || ('a' ≤ c && c ≤ 'z') || ('A' ≤ c && c ≤ 'Z') ||
    ('0' ≤ c && c ≤ '9') || c = '.' || c = '_' || c = '/' || c = '-'

/-- `SHORT_FLAG_REGEX = ^-[A-Za-z]+$` (src/index.ts line 54): a hyphen
followed by one or more ASCII letters. -/
def SHORT_FLAG (s : String) : Bool :=
  match s.data with
  | c :: rest => c = '-' && !rest.isEmpty && rest.all Char.isAlpha
  | [] => false

/-- Matcher for the tail of `LONG_FLAG_REGEX`, i.e. `[a-z]+(?:-[a-z]+)*`.
The boolean state records whether at least one lowercase letter of the
current group has been read (so the string may end, or a new group may
start after a hyphen). -/
def lfBody : Bool → List Char → Bool
  | b, [] => b
  | b, c :: cs => if c = '-' then b && lfBody false cs else c.isLower && lfBody true cs

/-- `LONG_FLAG_REGEX = ^--[a-z]+(?:-[a-z]+)*$` (src/index.ts line 55). -/
def LONG_FLAG (s : String) : Bool :=
  match s.data with
  | c1 :: c2 :: rest => c1 = '-' && c2 = '-' && lfBody false rest
  | _ => false

/-- The characters of `DISALLOWED_CHARS_REGEX` (src/index.ts line 58):
semicolon, ampersand, pipe, dollar, backtick (written `Char.ofNat 96`),
angle brackets, backslash, star, question mark, parentheses, braces
(written `Char.ofNat 123` / `Char.ofNat 125`), square brackets, tilde. -/
def DISALLOWED_CHARS : List Char :=
  [';', '&', '|', '$', Char.ofNat 96, '<', '>', '\\', '*', '?',
   '(', ')', Char.ofNat 123, Char.ofNat 125, '[', ']', '~']

/-- `DISALLOWED_CHARS_REGEX.test token`: some character of the token is a
disallowed shell metacharacter. -/
def hasDisallowedChar (s : String) : Bool :=
  s.data.any (fun c => DISALLOWED_CHARS.contains c)

/-- `isValidDependencyName` (src/index.ts lines 73-75):
`PACKAGE_NAME_REGEX.test(name)` — at least one character (the `+`), all in
the class. -/
def isValidDependencyName (name : String) : Bool :=
  !name.data.isEmpty && name.data.all isPackageNameChar

/-- `validateOptionTokens` (src/index.ts lines 81-94): returns `null`
(here `none`) as soon as some token fails
`(SHORT_FLAG_REGEX.test t || LONG_FLAG_REGEX.test t) && !DISALLOWED_CHARS_REGEX.test t`,
otherwise the token array itself. -/
def validateOptionTokens (tokens : List String) : Option (List String) :=
  if tokens.all (fun token =>
      (SHORT_FLAG token || LONG_FLAG token) && !hasDisallowedChar token)
  then some tokens else none

/-- The runtime domain of `parseAndValidateOptions`: `undefined`
(or other falsy absence), one space-separated string, or an array of
tokens. -/
inductive OptionsInput where
  | absent : OptionsInput
  | str : String → OptionsInput
  | arr : List String → OptionsInput
deriving DecidableEq

/-- Helper for `splitWhitespaceTokens`: collects the maximal runs of
non-whitespace characters; `acc` is the reversed current run. -/
def splitWsAux : List Char → List Char → List String
  | [], acc => if acc.isEmpty then [] else [String.mk acc.reverse]
  | c :: cs, acc =>
    if c.isWhitespace then
      if acc.isEmpty then splitWsAux cs [] else String.mk acc.reverse :: splitWsAux cs []
    else splitWsAux cs (c :: acc)

/-- `options.split(/\s+/).filter(Boolean)` (src/index.ts line 105): the
maximal whitespace-free runs of the string, i.e. split on whitespace
runs dropping empty fragments. -/
def splitWhitespaceTokens (s : String) : List String :=
  splitWsAux s.data []

/-- `parseAndValidateOptions` (src/index.ts lines 100-107).  A falsy
`options` (absent, or the empty string) yields the empty token list; an
array is validated directly; a non-empty string is split on whitespace
first. -/
def parseAndValidateOptions : OptionsInput → Option (List String)
  | .absent => some []
  | .str s => if s = "" then some [] else validateOptionTokens (splitWhitespaceTokens s)
  | .arr tokens => validateOptionTokens tokens

/-- `Dependency` (src/index.ts lines 7-11); `override` is `none` when the
caller omitted the field (the orchestrator defaults it to `false`). -/
structure Dependency where
  name : String
  options : OptionsInput
  override : Option Bool
deriving DecidableEq

/-- `InstallOptions` (src/index.ts lines 16-20). -/
structure InstallOptions where
  globalOptions : Option (List String)
  dependencies : List Dependency
  verbose : Option Bool

/-- `InstallResult` (src/index.ts lines 25-29). -/
structure InstallResult where
  name : String
  success : Bool
  message : String
deriving DecidableEq

/-- `InstallationResult` (src/index.ts lines 34-39). -/
structure InstallationResult where
  success : Bool
  details : List InstallResult
  logs : String
  logsArray : List String
deriving DecidableEq

/-- `CommandResult` (src/index.ts lines 44-48). -/
structure CommandResult where
  success : Bool
  message : String
  logs : String
deriving DecidableEq

/-- What the `exec` callback reports for one spawned command: the error
object (its message), the standard output and the standard error. -/
structure ExecOutcome where
  error : Option String
  stdout : String
  stderr : String

/-- Oracle for the process boundary: the outcome `exec` would report for
each command string. -/
def ExecEnv : Type := String → ExecOutcome

/-- `logMessage` (src/index.ts lines 63-68): pushes the message onto the
logs array; `verbose` only controls the (unmodelled) console mirror. -/
def logMessage (message : String) (verbose : Bool) (logs : List String) : List String :=
  logs ++ [message]

/-- `executeCommand` (src/index.ts lines 112-128): runs the command
through the oracle, classifies the outcome, appends the five log lines,
and returns the command result together with the updated logs array. -/
def executeCommand (command : String) (verbose : Bool) (logs : List String) (env : ExecEnv) :
    CommandResult × List String :=
  let res := env command
  let logs1 := logMessage ("command: " ++ command) verbose logs
  let success := res.error.isNone
  let message :=
    match res.error with
    | some e => e
    | none => if res.stdout = "" then res.stderr else res.stdout
  let logs2 := logMessage ("stdout: " ++ res.stdout) verbose logs1
  let logs3 := logMessage ("stderr: " ++ res.stderr) verbose logs2
  let logs4 :=
    logMessage ("error: " ++ (match res.error with | some e => e | none => "none")) verbose logs3
  let logs5 :=
    logMessage ("success: " ++ toString success ++ ", message: " ++ message) verbose logs4
  ({ success := success, message := message, logs := String.intercalate "\n" logs5 }, logs5)

/-- `['npm install', name, ...finalOptions].join(' ')`:
JavaScript `Array.prototype.join` with a single-space separator. -/
def joinSp : List String → String
  | [] => ""
  | [s] => s
  | s :: rest => s ++ " " ++ joinSp rest

/-- List-level `String.prototype.trim`: drop whitespace from both ends. -/
def trimChars (l : List Char) : List Char :=
  ((l.dropWhile Char.isWhitespace).reverse.dropWhile Char.isWhitespace).reverse

/-- `String.prototype.trim` (on the characters reachable here, JavaScript
whitespace coincides with `Char.isWhitespace`). -/
def jsTrim (s : String) : String :=
  String.mk (trimChars s.data)

/-- The body of the `for (const dep of dependencies)` loop of
`installDependencies` (src/index.ts lines 137-180), iterated over the
remaining dependencies.  Returns the per-dependency results of the
suffix, the final logs array, and the commands spawned, in order.  The
`Except.error` branch is the runtime throw the non-null assertion
`validDepOptions!` would produce on `null`. -/
def installLoop (globalOptions : List String) (verbose : Bool) (env : ExecEnv) :
    List Dependency → List String →
    Except String (List InstallResult × List String × List String)
  | [], logs => .ok ([], logs, [])
  | dep :: deps, logs =>
    let name := dep.name
    let override := dep.override.getD false
    if isValidDependencyName name = false then
      let errorMessage := "Invalid dependency name: " ++ name
      let logs1 := logMessage errorMessage verbose logs
      match installLoop globalOptions verbose env deps logs1 with
      | .error e => .error e
      | .ok (results, logsF, spawned) =>
        .ok ({ name := name, success := false, message := errorMessage } :: results,
             logsF, spawned)
    else
      let validGlobalOptions := validateOptionTokens globalOptions
      let validDepOptions := parseAndValidateOptions dep.options
      if (override && validDepOptions.isNone) ||
         (!override && (validGlobalOptions.isNone || validDepOptions.isNone)) then
        let errorMessage := "Invalid options for dependency: " ++ name
        let logs1 := logMessage errorMessage verbose logs
        match installLoop globalOptions verbose env deps logs1 with
        | .error e => .error e
        | .ok (results, logsF, spawned) =>
          .ok ({ name := name, success := false, message := errorMessage } :: results,
               logsF, spawned)
      else
        match validDepOptions with
        | none => .error "TypeError: validDepOptions is not iterable"
        | some vdep =>
          let finalOptions := if override then vdep else validGlobalOptions.getD [] ++ vdep
          let depCommand := jsTrim (joinSp ("npm install" :: name :: finalOptions))
          let rl := executeCommand depCommand verbose logs env
          match installLoop globalOptions verbose env deps rl.2 with
          | .error e => .error e
          | .ok (results, logsF, spawned) =>
            .ok ({ name := name, success := rl.1.success, message := rl.1.message } :: results,
                 logsF, depCommand :: spawned)

/-- `installDependencies` (src/index.ts lines 133-191), parametrised by
the process oracle.  `globalOptions` defaults to `[]` and `verbose` to
`true` as in the destructuring of the source. -/
def installDependencies (options : InstallOptions) (env : ExecEnv) :
    Except String InstallationResult :=
  let dependencies := options.dependencies
  let globalOptions := options.globalOptions.getD []
  let verbose := options.verbose.getD true
  match installLoop globalOptions verbose env dependencies [] with
  | .error e => .error e
  | .ok (results, logs, _) =>
    .ok { success := results.all (fun r => r.success),
          details := results,
          logs := String.intercalate "\n" logs,
          logsArray := logs }

/-- The commands passed to `exec` during a run, in spawn order (the
process-boundary trace of `installDependencies`). -/
def spawnedCommands (options : InstallOptions) (env : ExecEnv) : List String :=
  match installLoop (options.globalOptions.getD []) (options.verbose.getD true) env
      options.dependencies [] with
  | .error _ => []
  | .ok (_, _, spawned) => spawned

/-- One iteration of the loop of `installDependencies`, factored out for
the proofs: the per-dependency result, the log lines this dependency
appends, and the commands it spawns (`[]` or one command).  The log lines
appended by an iteration do not depend on the lines already in the logs
array, so the loop is characterised by mapping this function over the
dependency list (`installLoop_eq`). -/
def depEntry (globalOptions : List String) (verbose : Bool) (env : ExecEnv)
    (dep : Dependency) : InstallResult × List String × List String :=
  let name := dep.name
  let override := dep.override.getD false
  if isValidDependencyName name = false then
    let errorMessage := "Invalid dependency name: " ++ name
    ({ name := name, success := false, message := errorMessage }, [errorMessage], [])
  else
    let validGlobalOptions := validateOptionTokens globalOptions
    let validDepOptions := parseAndValidateOptions dep.options
    if (override && validDepOptions.isNone) ||
       (!override && (validGlobalOptions.isNone || validDepOptions.isNone)) then
      let errorMessage := "Invalid options for dependency: " ++ name
      ({ name := name, success := false, message := errorMessage }, [errorMessage], [])
    else
      let vdep := validDepOptions.getD []
      let finalOptions := if override then vdep else validGlobalOptions.getD [] ++ vdep
      let depCommand := jsTrim (joinSp ("npm install" :: name :: finalOptions))
      let rl := executeCommand depCommand verbose [] env
      ({ name := name, success := rl.1.success, message := rl.1.message }, rl.2, [depCommand])

/-- The dependency-name character class as §4.1 of the specification
words it: `[A-Za-z0-9@._ / -]` (upper-case letters, lower-case letters,
digits, at sign, dot, underscore, slash, hyphen). -/
def specNameChar (c : Char) : Bool :=
  c.isUpper || c.isLower || c.isDigit || c = '@' || c = '.' || c = '_' || c = '/' || c = '-'

/-- The command string as §4.3 of the specification words it: the
install verb, the name, and the options joined by single spaces, with no
trailing whitespace when no options are present. -/
def specCommand (verb name : String) (opts : List String) : String :=
  if opts.isEmpty then verb ++ " " ++ name
  else verb ++ " " ++ name ++ " " ++ joinSp opts

/-- A log line that begins with `command:` (§8 of the specification). -/
def isCommandLine (line : String) : Bool :=
  List.isPrefixOf "command:".data line.data

/-- The aggregate report of a run, with a dummy value in the (provably
unreachable) exceptional case; used to build concrete witnesses. -/
def runResult (options : InstallOptions) (env : ExecEnv) : InstallationResult :=
  match installDependencies options env with
  | .ok r => r
  | .error _ => { success := false, details := [], logs := "", logsArray := [] }

/-- The message `executeCommand` resolves for a command (`error.message`
when an error is reported, else `stdout || stderr`). -/
def execMessage (cmd : String) (env : ExecEnv) : String :=
  match (env cmd).error with
  | some e => e
  | none => if (env cmd).stdout = "" then (env cmd).stderr else (env cmd).stdout

/-- The five log lines one `executeCommand` invocation appends, in
order. -/
def execLogLines (cmd : String) (env : ExecEnv) : List String :=
  ["command: " ++ cmd,
   "stdout: " ++ (env cmd).stdout,
   "stderr: " ++ (env cmd).stderr,
   "error: " ++ (match (env cmd).error with | some e => e | none => "none"),
   "success: " ++ toString (env cmd).error.isNone ++ ", message: " ++ execMessage cmd env]

/-- The result/logs/spawn triple an iteration produces when it reaches
the process boundary with effective options `opts`. -/
def spawnEntry (name : String) (opts : List String) (env : ExecEnv) :
    InstallResult × List String × List String :=
  let cmd := jsTrim (joinSp ("npm install" :: name :: opts))
  ({ name := name, success := (env cmd).error.isNone, message := execMessage cmd env },
   execLogLines cmd env, [cmd])

/-- Concrete oracle for witnesses: every command succeeds with output
`ok`. -/
def env0 : ExecEnv := fun _ => { error := none, stdout := "ok", stderr := "" }

/-- Concrete oracle for witnesses: every command reports an execution
error with message `boom`. -/
def envFail : ExecEnv := fun _ => { error := some "boom", stdout := "", stderr := "" }

/-- Concrete oracle for witnesses: success with empty standard output
and a warning on standard error. -/
def envWarn : ExecEnv := fun _ => { error := none, stdout := "", stderr := "warning" }

/-- Concrete configuration for witnesses: one valid and one invalid
dependency. -/
def opts0 : InstallOptions :=
  { globalOptions := none,
    dependencies :=
      [ { name := "lodash", options := .arr ["--save-dev"], override := none },
        { name := "bad name", options := .absent, override := none } ],
    verbose := some false }

end DynamicInstaller


namespace DynamicInstaller

/-! ## Basic lemmas about the embedding -/

theorem executeCommand_eq (cmd : String) (v : Bool) (logs : List String) (env : ExecEnv) :
    executeCommand cmd v logs env =
      ({ success := (env cmd).error.isNone,
         message := execMessage cmd env,
         logs := String.intercalate "\n" (logs ++ execLogLines cmd env) },
       logs ++ execLogLines cmd env) := by
  cases h : (env cmd).error with
  | none =>
    simp only [executeCommand, logMessage, execMessage, execLogLines, h]
    have hnone : ("error: " ++ "none" : String) = "error: none" := rfl
    simp [hnone, List.append_assoc]
  | some e =>
    simp only [executeCommand, logMessage, execMessage, execLogLines, h]
    simp [List.append_assoc]

theorem depEntry_invalidName (g : List String) (v : Bool) (env : ExecEnv) (dep : Dependency)
    (h : isValidDependencyName dep.name = false) :
    depEntry g v env dep =
      ({ name := dep.name, success := false,
         message := "Invalid dependency name: " ++ dep.name },
       ["Invalid dependency name: " ++ dep.name], []) := by
  simp [depEntry, h]

theorem depEntry_invalidOptions (g : List String) (v : Bool) (env : ExecEnv) (dep : Dependency)
    (hname : isValidDependencyName dep.name = true)
    (h : (dep.override.getD false = true ∧ parseAndValidateOptions dep.options = none) ∨
         (dep.override.getD false = false ∧
           (validateOptionTokens g = none ∨ parseAndValidateOptions dep.options = none))) :
    depEntry g v env dep =
      ({ name := dep.name, success := false,
         message := "Invalid options for dependency: " ++ dep.name },
       ["Invalid options for dependency: " ++ dep.name], []) := by
  rcases h with ⟨hov, hvd⟩ | ⟨hov, hvg | hvd⟩
  · simp [depEntry, hname, hov, hvd]
  · simp [depEntry, hname, hov, hvg]
  · simp [depEntry, hname, hov, hvd]

theorem depEntry_override_spawn (g : List String) (v : Bool) (env : ExecEnv) (dep : Dependency)
    (vdep : List String)
    (hname : isValidDependencyName dep.name = true)
    (hov : dep.override.getD false = true)
    (hvd : parseAndValidateOptions dep.options = some vdep) :
    depEntry g v env dep = spawnEntry dep.name vdep env := by
  simp [depEntry, spawnEntry, hname, hov, hvd, executeCommand_eq]

theorem depEntry_noOverride_spawn (g : List String) (v : Bool) (env : ExecEnv) (dep : Dependency)
    (vg vdep : List String)
    (hname : isValidDependencyName dep.name = true)
    (hov : dep.override.getD false = false)
    (hvg : validateOptionTokens g = some vg)
    (hvd : parseAndValidateOptions dep.options = some vdep) :
    depEntry g v env dep = spawnEntry dep.name (vg ++ vdep) env := by
  simp [depEntry, spawnEntry, hname, hov, hvg, hvd, executeCommand_eq]

/-- Master characterisation of the orchestration loop: it never reaches
the exceptional branch, the per-dependency results are the map of
`depEntry` over the dependency list, the log lines are accumulated in
order, and so are the spawned commands. -/
theorem installLoop_eq (g : List String) (v : Bool) (env : ExecEnv) :
    ∀ (deps : List Dependency) (logs : List String),
    installLoop g v env deps logs =
      .ok (deps.map (fun d => (depEntry g v env d).1),
           logs ++ deps.flatMap (fun d => (depEntry g v env d).2.1),
           deps.flatMap (fun d => (depEntry g v env d).2.2)) := by
  intro deps
  induction deps with
  | nil => intro logs; simp [installLoop]
  | cons dep deps ih =>
    intro logs
    by_cases hname : isValidDependencyName dep.name = false
    · simp [installLoop, hname, logMessage, ih, depEntry_invalidName g v env dep hname,
        List.append_assoc]
    · have hname' : isValidDependencyName dep.name = true := by
        simpa using hname
      cases hov : dep.override.getD false with
      | false =>
        cases hvg : validateOptionTokens g with
        | none =>
          simp [installLoop, hname, hov, hvg, logMessage, ih,
            depEntry_invalidOptions g v env dep hname' (Or.inr ⟨hov, Or.inl hvg⟩),
            List.append_assoc]
        | some vg =>
          cases hvd : parseAndValidateOptions dep.options with
          | none =>
            simp [installLoop, hname, hov, hvg, hvd, logMessage, ih,
              depEntry_invalidOptions g v env dep hname' (Or.inr ⟨hov, Or.inr hvd⟩),
              List.append_assoc]
          | some vdep =>
            simp [installLoop, hname, hov, hvg, hvd, logMessage, ih,
              depEntry_noOverride_spawn g v env dep vg vdep hname' hov hvg hvd,
              spawnEntry, executeCommand_eq, List.append_assoc]
      | true =>
        cases hvd : parseAndValidateOptions dep.options with
        | none =>
          simp [installLoop, hname, hov, hvd, logMessage, ih,
            depEntry_invalidOptions g v env dep hname' (Or.inl ⟨hov, hvd⟩),
            List.append_assoc]
        | some vdep =>
          simp [installLoop, hname, hov, hvd, logMessage, ih,
            depEntry_override_spawn g v env dep vdep hname' hov hvd,
            spawnEntry, executeCommand_eq, List.append_assoc]

end DynamicInstaller

namespace DynamicInstaller

/-! ## Consequences of the master lemma -/

theorem installDependencies_eq (opts : InstallOptions) (env : ExecEnv) :
    installDependencies opts env =
      .ok { success := (opts.dependencies.map (fun d =>
                (depEntry (opts.globalOptions.getD []) (opts.verbose.getD true) env d).1)).all
                  (fun r => r.success),
            details := opts.dependencies.map (fun d =>
                (depEntry (opts.globalOptions.getD []) (opts.verbose.getD true) env d).1),
            logs := String.intercalate "\n" (opts.dependencies.flatMap (fun d =>
                (depEntry (opts.globalOptions.getD []) (opts.verbose.getD true) env d).2.1)),
            logsArray := opts.dependencies.flatMap (fun d =>
                (depEntry (opts.globalOptions.getD []) (opts.verbose.getD true) env d).2.1) } := by
  simp [installDependencies, installLoop_eq]

theorem spawnedCommands_eq (opts : InstallOptions) (env : ExecEnv) :
    spawnedCommands opts env =
      opts.dependencies.flatMap (fun d =>
        (depEntry (opts.globalOptions.getD []) (opts.verbose.getD true) env d).2.2) := by
  simp [spawnedCommands, installLoop_eq]

/-! ## Character-level lemmas -/

theorem lfBody_chars : ∀ (b : Bool) (l : List Char), lfBody b l = true →
    ∀ c ∈ l, c = '-' ∨ c.isLower = true := by
  intro b l
  induction l generalizing b with
  | nil => intro _ c hc; cases hc
  | cons a as ih =>
    intro h c hc
    by_cases ha : a = '-'
    · subst ha
      rw [lfBody, if_pos rfl, Bool.and_eq_true] at h
      rcases List.mem_cons.mp hc with rfl | hc
      · exact Or.inl rfl
      · exact ih false h.2 c hc
    · rw [lfBody, if_neg ha, Bool.and_eq_true] at h
      rcases List.mem_cons.mp hc with rfl | hc
      · exact Or.inr h.1
      · exact ih true h.2 c hc

theorem flag_data_ne_nil (t : String) (h : (SHORT_FLAG t || LONG_FLAG t) = true) :
    t.data ≠ [] := by
  intro hnil
  simp [SHORT_FLAG, LONG_FLAG, hnil] at h

theorem flagShape_chars (t : String) (h : (SHORT_FLAG t || LONG_FLAG t) = true) :
    ∀ c ∈ t.data, c = '-' ∨ c.isAlpha = true := by
  have h' : SHORT_FLAG t = true ∨ LONG_FLAG t = true := by simpa using h
  rcases h' with hs | hl
  · cases ht : t.data with
    | nil => rw [SHORT_FLAG, ht] at hs; exact absurd hs (by simp)
    | cons a rest =>
      rw [SHORT_FLAG, ht] at hs
      simp only [Bool.and_eq_true, decide_eq_true_eq] at hs
      intro c hc
      rcases List.mem_cons.mp hc with rfl | hc
      · exact Or.inl hs.1.1
      · exact Or.inr (List.all_eq_true.mp hs.2 c hc)
  · cases ht : t.data with
    | nil => rw [LONG_FLAG, ht] at hl; exact absurd hl (by simp)
    | cons a rest =>
      cases rest with
      | nil => rw [LONG_FLAG, ht] at hl; exact absurd hl (by simp)
      | cons b rest' =>
        rw [LONG_FLAG, ht] at hl
        simp only [Bool.and_eq_true, decide_eq_true_eq] at hl
        intro c hc
        rcases List.mem_cons.mp hc with rfl | hc
        · exact Or.inl hl.1.1
        · rcases List.mem_cons.mp hc with rfl | hc
          · exact Or.inl hl.1.2
          · rcases lfBody_chars false rest' hl.2 c hc with h1 | h1
            · exact Or.inl h1
            · exact Or.inr (by simp [Char.isAlpha, h1])

theorem flagchar_not_disallowed (c : Char) (hc : c = '-' ∨ c.isAlpha = true) :
    DISALLOWED_CHARS.contains c = false := by
  by_contra hcon
  rw [Bool.not_eq_false] at hcon
  have hmem : c ∈ DISALLOWED_CHARS := by
    simpa [List.contains] using hcon
  fin_cases hmem <;> exact absurd hc (by decide)

theorem flagchar_not_ws (c : Char) (hc : c = '-' ∨ c.isAlpha = true) :
    c.isWhitespace = false := by
  by_contra hw
  rw [Bool.not_eq_false] at hw
  have hdef : c.isWhitespace = (c = ' ' || c = '\t' || c = '\r' || c = '\n') := rfl
  rw [hdef] at hw
  simp only [Bool.or_eq_true, decide_eq_true_eq] at hw
  rcases hw with ((rfl | rfl) | rfl) | rfl <;> exact absurd hc (by decide)

theorem pkgchar_not_ws (c : Char) (hc : isPackageNameChar c = true) :
    c.isWhitespace = false := by
  by_contra hw
  rw [Bool.not_eq_false] at hw
  have hdef : c.isWhitespace = (c = ' ' || c = '\t' || c = '\r' || c = '\n') := rfl
  rw [hdef] at hw
  simp only [Bool.or_eq_true, decide_eq_true_eq] at hw
  rcases hw with ((rfl | rfl) | rfl) | rfl <;> exact absurd hc (by decide)

end DynamicInstaller

namespace DynamicInstaller

/-! ## Trim and join lemmas -/

theorem dropWhile_id_of_head (p : Char → Bool) (l : List Char)
    (h : ∀ c, l.head? = some c → p c = false) : l.dropWhile p = l := by
  cases l with
  | nil => rfl
  | cons a as => simp [List.dropWhile_cons, h a rfl]

theorem trimChars_id (l : List Char)
    (h1 : ∀ c, l.head? = some c → c.isWhitespace = false)
    (h2 : ∀ c, l.getLast? = some c → c.isWhitespace = false) :
    trimChars l = l := by
  unfold trimChars
  rw [dropWhile_id_of_head _ _ h1]
  rw [dropWhile_id_of_head _ _ (fun c hc => h2 c (by rwa [List.head?_reverse] at hc))]
  exact List.reverse_reverse l

theorem jsTrim_id (s : String)
    (h1 : ∀ c, s.data.head? = some c → c.isWhitespace = false)
    (h2 : ∀ c, s.data.getLast? = some c → c.isWhitespace = false) :
    jsTrim s = s := by
  rw [jsTrim, trimChars_id s.data h1 h2]

theorem mem_of_getLast : ∀ (l : List Char) (c : Char), l.getLast? = some c → c ∈ l := by
  intro l
  induction l with
  | nil => intro c h; simp at h
  | cons a as ih =>
    intro c h
    cases as with
    | nil =>
      rw [List.getLast?_singleton] at h
      have ha := Option.some.inj h
      subst ha; exact List.mem_singleton_self a
    | cons b bs =>
      rw [List.getLast?_cons_cons] at h
      exact List.mem_cons_of_mem a (ih c h)

theorem data_getLast_append (A B : String) (c : Char) (h : B.data.getLast? = some c) :
    (A ++ B).data.getLast? = some c := by
  rw [String.data_append, List.getLast?_append, h, Option.or_some]

theorem joinSp_cons_cons (s t : String) (r : List String) :
    joinSp (s :: t :: r) = s ++ " " ++ joinSp (t :: r) := rfl

theorem joinSp_getLast (opts : List String)
    (hflag : ∀ t ∈ opts, (SHORT_FLAG t || LONG_FLAG t) = true) (hne : opts ≠ []) :
    ∃ c, (joinSp opts).data.getLast? = some c ∧ (c = '-' ∨ c.isAlpha = true) := by
  induction opts with
  | nil => exact absurd rfl hne
  | cons t rest ih =>
    cases rest with
    | nil =>
      have hts := hflag t (List.mem_singleton_self t)
      have hne' : t.data ≠ [] := flag_data_ne_nil t hts
      obtain ⟨c, hc⟩ := Option.isSome_iff_exists.mp (List.getLast?_isSome.mpr hne')
      exact ⟨c, by simpa [joinSp] using hc, flagShape_chars t hts c (mem_of_getLast _ _ hc)⟩
    | cons u rest' =>
      obtain ⟨c, hc, hcs⟩ :=
        ih (fun x hx => hflag x (List.mem_cons_of_mem _ hx)) (by simp)
      refine ⟨c, ?_, hcs⟩
      rw [joinSp_cons_cons]
      exact data_getLast_append _ _ c hc

/-! ## Extraction lemmas for the validators -/

theorem validName_props (name : String) (h : isValidDependencyName name = true) :
    name.data ≠ [] ∧ ∀ c ∈ name.data, isPackageNameChar c = true := by
  rw [isValidDependencyName, Bool.and_eq_true] at h
  refine ⟨?_, List.all_eq_true.mp h.2⟩
  have h1 := h.1
  simp only [Bool.not_eq_true'] at h1
  simpa using h1

theorem validateOptionTokens_eq_some (toks res : List String)
    (h : validateOptionTokens toks = some res) :
    res = toks ∧
      ∀ t ∈ toks, ((SHORT_FLAG t || LONG_FLAG t) && !hasDisallowedChar t) = true := by
  by_cases hall : (toks.all fun token =>
      (SHORT_FLAG token || LONG_FLAG token) && !hasDisallowedChar token) = true
  · rw [validateOptionTokens, if_pos hall] at h
    exact ⟨(Option.some.inj h).symm, List.all_eq_true.mp hall⟩
  · rw [validateOptionTokens, if_neg hall] at h
    cases h

theorem validateOptionTokens_flags (toks res : List String)
    (h : validateOptionTokens toks = some res) :
    ∀ t ∈ res, (SHORT_FLAG t || LONG_FLAG t) = true := by
  obtain ⟨heq, hall⟩ := validateOptionTokens_eq_some toks res h
  subst heq
  intro t ht
  have h2 := hall t ht
  rw [Bool.and_eq_true] at h2
  exact h2.1

theorem parseAndValidateOptions_flags (o : OptionsInput) (vd : List String)
    (h : parseAndValidateOptions o = some vd) :
    ∀ t ∈ vd, (SHORT_FLAG t || LONG_FLAG t) = true := by
  cases o with
  | absent =>
    have hv : ([] : List String) = vd := Option.some.inj h
    subst hv; intro t ht; cases ht
  | str s =>
    by_cases hs : s = ""
    · rw [parseAndValidateOptions, if_pos hs] at h
      have hv : ([] : List String) = vd := Option.some.inj h
      subst hv; intro t ht; cases ht
    · rw [parseAndValidateOptions, if_neg hs] at h
      exact validateOptionTokens_flags _ _ h
  | arr l => exact validateOptionTokens_flags _ _ h

end DynamicInstaller

namespace DynamicInstaller

/-! ## The built command string -/

theorem head_npm (Y : String) : ("npm install " ++ Y).data.head? = some 'n' := by
  rw [String.data_append]; rfl

theorem jsTrim_command_id (X : String)
    (hhead : X.data.head? = some 'n')
    (hlast : ∃ c, X.data.getLast? = some c ∧ c.isWhitespace = false) :
    jsTrim X = X := by
  obtain ⟨d, hd, hdws⟩ := hlast
  refine jsTrim_id X ?_ ?_
  · intro c hc
    rw [hhead] at hc
    have := Option.some.inj hc
    subst this; decide
  · intro c hc
    rw [hd] at hc
    have := Option.some.inj hc
    subst this; exact hdws

theorem command_eq_specCommand (name : String) (opts : List String)
    (hname : isValidDependencyName name = true)
    (hflag : ∀ t ∈ opts, (SHORT_FLAG t || LONG_FLAG t) = true) :
    jsTrim (joinSp ("npm install" :: name :: opts)) = specCommand "npm install" name opts := by
  obtain ⟨hne, hchars⟩ := validName_props name hname
  obtain ⟨d, hd⟩ := Option.isSome_iff_exists.mp (List.getLast?_isSome.mpr hne)
  have hdpkg : isPackageNameChar d = true := hchars d (mem_of_getLast _ _ hd)
  cases opts with
  | nil =>
    have hjoin : joinSp ["npm install", name] = "npm install " ++ name := by
      rw [joinSp_cons_cons]
      rw [show joinSp [name] = name from rfl]
      rw [show ("npm install" ++ " " : String) = "npm install " from rfl]
    have hsc : specCommand "npm install" name [] = "npm install " ++ name := by
      rw [specCommand, if_pos (by rfl)]
      rw [show ("npm install" ++ " " : String) = "npm install " from rfl]
    rw [hjoin, hsc]
    exact jsTrim_command_id _ (head_npm name)
      ⟨d, data_getLast_append _ _ d hd, pkgchar_not_ws d hdpkg⟩
  | cons t rest =>
    have hJ := joinSp_getLast (t :: rest) hflag (by simp)
    obtain ⟨c, hc, hcs⟩ := hJ
    have hjoin : joinSp ("npm install" :: name :: t :: rest) =
        "npm install " ++ (name ++ (" " ++ joinSp (t :: rest))) := by
      rw [joinSp_cons_cons, joinSp_cons_cons]
      rw [show ("npm install" ++ " " : String) = "npm install " from rfl]
      rw [String.append_assoc]
    have hspec : specCommand "npm install" name (t :: rest) =
        "npm install " ++ (name ++ (" " ++ joinSp (t :: rest))) := by
      rw [specCommand, if_neg (by simp)]
      simp only [← String.append_assoc]
      rw [show ("npm install" ++ " " : String) = "npm install " from rfl]
    rw [hjoin, hspec]
    refine jsTrim_command_id _ (head_npm _) ⟨c, ?_, flagchar_not_ws c hcs⟩
    exact data_getLast_append _ _ c (data_getLast_append _ _ c (data_getLast_append _ _ c hc))

/-! ## Log-line shape lemmas -/

theorem isCommandLine_append (s : String) : isCommandLine ("command: " ++ s) = true := by
  rw [isCommandLine, String.data_append]; rfl

theorem isCommandLine_false_of_ne (P s : String) (a : Char) (l : List Char)
    (hP : P.data = a :: l) (ha : a ≠ 'c') : isCommandLine (P ++ s) = false := by
  rw [isCommandLine, String.data_append, hP, List.cons_append]
  rw [show ("command:".data) = 'c' :: "ommand:".data from rfl]
  rw [List.isPrefixOf_cons₂]
  have hbeq : (('c' : Char) == a) = false := beq_eq_false_iff_ne.mpr (Ne.symm ha)
  rw [hbeq, Bool.false_and]

theorem filter_execLogLines (cmd : String) (env : ExecEnv) :
    (execLogLines cmd env).filter (fun l => isCommandLine l) = ["command: " ++ cmd] := by
  have h1 := isCommandLine_append cmd
  have h2 := isCommandLine_false_of_ne "stdout: " (env cmd).stdout 's' _ rfl (by decide)
  have h3 := isCommandLine_false_of_ne "stderr: " (env cmd).stderr 's' _ rfl (by decide)
  have h4 := isCommandLine_false_of_ne "error: "
    (match (env cmd).error with | some e => e | none => "none") 'e' _ rfl (by decide)
  have h5 := isCommandLine_false_of_ne "success: "
    (toString (env cmd).error.isNone ++ (", message: " ++ execMessage cmd env)) 's' _ rfl
    (by decide)
  rw [execLogLines]
  simp only [String.append_assoc]
  simp [List.filter_cons, h1, h2, h3, h4, h5]

theorem filter_depEntry_logs (g : List String) (v : Bool) (env : ExecEnv) (dep : Dependency) :
    ((depEntry g v env dep).2.1).filter (fun l => isCommandLine l) =
      ((depEntry g v env dep).2.2).map (fun c => "command: " ++ c) := by
  by_cases hname : isValidDependencyName dep.name = false
  · rw [depEntry_invalidName g v env dep hname]
    simp [List.filter_cons,
      isCommandLine_false_of_ne "Invalid dependency name: " dep.name 'I' _ rfl (by decide)]
  · have hname' : isValidDependencyName dep.name = true := by simpa using hname
    have hinv := isCommandLine_false_of_ne "Invalid options for dependency: " dep.name 'I' _
      rfl (by decide)
    cases hov : dep.override.getD false with
    | false =>
      cases hvg : validateOptionTokens g with
      | none =>
        rw [depEntry_invalidOptions g v env dep hname' (Or.inr ⟨hov, Or.inl hvg⟩)]
        simp [List.filter_cons, hinv]
      | some vg =>
        cases hvd : parseAndValidateOptions dep.options with
        | none =>
          rw [depEntry_invalidOptions g v env dep hname' (Or.inr ⟨hov, Or.inr hvd⟩)]
          simp [List.filter_cons, hinv]
        | some vdep =>
          rw [depEntry_noOverride_spawn g v env dep vg vdep hname' hov hvg hvd]
          simp [spawnEntry, filter_execLogLines]
    | true =>
      cases hvd : parseAndValidateOptions dep.options with
      | none =>
        rw [depEntry_invalidOptions g v env dep hname' (Or.inl ⟨hov, hvd⟩)]
        simp [List.filter_cons, hinv]
      | some vdep =>
        rw [depEntry_override_spawn g v env dep vdep hname' hov hvd]
        simp [spawnEntry, filter_execLogLines]

theorem filter_flatMap_logs (g : List String) (v : Bool) (env : ExecEnv) :
    ∀ deps : List Dependency,
    ((deps.flatMap (fun d => (depEntry g v env d).2.1)).filter (fun l => isCommandLine l)) =
      (deps.flatMap (fun d => (depEntry g v env d).2.2)).map (fun c => "command: " ++ c) := by
  intro deps
  induction deps with
  | nil => simp
  | cons dep deps ih =>
    simp only [List.flatMap_cons, List.filter_append, List.map_append, ih,
      filter_depEntry_logs]

end DynamicInstaller

namespace DynamicInstaller

theorem depEntry_name (g : List String) (v : Bool) (env : ExecEnv) (d : Dependency) :
    (depEntry g v env d).1.name = d.name := by
  simp only [depEntry]
  split
  · rfl
  · split
    · rfl
    · rfl

theorem pkgchar_eq_specChar (c : Char) : isPackageNameChar c = specNameChar c := by
  rw [Bool.eq_iff_iff]
  simp only [isPackageNameChar, specNameChar, Char.isUpper, Char.isLower, Char.isDigit,
    Bool.or_eq_true, Bool.and_eq_true, decide_eq_true_eq]
  tauto

/-! ## Claim theorems -/

/-- C1: for every install configuration and process oracle, the returned
aggregate report has one result per declared dependency, in declaration
order with matching names, its success flag is the conjunction of the
per-dependency success flags, and each dependency's result is a function
of that dependency alone (so one failing dependency never prevents
subsequent dependencies from being attempted). -/
theorem C1_aggregate_report (opts : InstallOptions) (env : ExecEnv)
    (r : InstallationResult) (h : installDependencies opts env = Except.ok r) :
    r.details.length = opts.dependencies.length ∧
    (∀ (i : Nat) (h1 : i < r.details.length) (h2 : i < opts.dependencies.length),
        (r.details.get ⟨i, h1⟩).name = (opts.dependencies.get ⟨i, h2⟩).name) ∧
    r.success = r.details.all (fun d => d.success) ∧
    (∀ (i : Nat) (h1 : i < r.details.length) (h2 : i < opts.dependencies.length),
        r.details.get ⟨i, h1⟩ =
          (depEntry (opts.globalOptions.getD []) (opts.verbose.getD true) env
            (opts.dependencies.get ⟨i, h2⟩)).1) := by
  rw [installDependencies_eq, Except.ok.injEq] at h
  subst h
  refine ⟨by simp, ?_, by simp, ?_⟩
  · intro i h1 h2
    simp [List.get_eq_getElem, List.getElem_map, depEntry_name]
  · intro i h1 h2
    simp [List.get_eq_getElem, List.getElem_map]

/-- C1 witness: the theorem applied to the concrete two-dependency
configuration `opts0` under the always-succeeding oracle. -/
theorem C1_aggregate_report_witness :
    installDependencies opts0 env0 = Except.ok (runResult opts0 env0) ∧
    (runResult opts0 env0).details.length = opts0.dependencies.length ∧
    (runResult opts0 env0).success =
      (runResult opts0 env0).details.all (fun d => d.success) :=
  ⟨rfl, (C1_aggregate_report opts0 env0 _ rfl).1,
    (C1_aggregate_report opts0 env0 _ rfl).2.2.1⟩

/-- C6: the top-level operation settles with an aggregate report for
every caller-supplied configuration and every process oracle — the
exceptional branch of the embedding is unreachable. -/
theorem C6_never_rejects (opts : InstallOptions) (env : ExecEnv) :
    ∃ r, installDependencies opts env = Except.ok r :=
  ⟨_, installDependencies_eq opts env⟩

/-- C5: the process runner reports failure with the error's description
when the process reports an execution error; otherwise success with
message standard output if non-empty else standard error, so a non-empty
standard-error stream alone never makes the result a failure. -/
theorem C5_outcome_classification (cmd : String) (v : Bool) (logs : List String)
    (env : ExecEnv) :
    (∀ e, (env cmd).error = some e →
        (executeCommand cmd v logs env).1.success = false ∧
        (executeCommand cmd v logs env).1.message = e) ∧
    ((env cmd).error = none →
        (executeCommand cmd v logs env).1.success = true ∧
        (executeCommand cmd v logs env).1.message =
          (if (env cmd).stdout = "" then (env cmd).stderr else (env cmd).stdout)) ∧
    ((env cmd).error = none → (env cmd).stderr ≠ "" →
        (executeCommand cmd v logs env).1.success = true) := by
  refine ⟨?_, ?_, ?_⟩
  · intro e he
    rw [executeCommand_eq]
    simp [execMessage, he]
  · intro he
    rw [executeCommand_eq]
    simp [execMessage, he]
  · intro he _
    rw [executeCommand_eq]
    simp [he]

/-- C5 witness: the theorem applied to a failing oracle and to a
succeeding oracle whose standard error holds a warning. -/
theorem C5_outcome_classification_witness :
    (envFail "npm install lodash").error = some "boom" ∧
    (executeCommand "npm install lodash" false [] envFail).1.success = false ∧
    (executeCommand "npm install lodash" false [] envFail).1.message = "boom" ∧
    (envWarn "npm install lodash").error = none ∧
    (envWarn "npm install lodash").stderr ≠ "" ∧
    (executeCommand "npm install lodash" false [] envWarn).1.success = true :=
  ⟨rfl,
   ((C5_outcome_classification "npm install lodash" false [] envFail).1 "boom" rfl).1,
   ((C5_outcome_classification "npm install lodash" false [] envFail).1 "boom" rfl).2,
   rfl, by decide,
   (C5_outcome_classification "npm install lodash" false [] envWarn).2.2 rfl (by decide)⟩

end DynamicInstaller

namespace DynamicInstaller

/-- C2 counterexample: the claim "accepts iff every character is in the
class" fails at the empty name — every character of `""` is vacuously in
the class, yet the validator rejects it (the regex `+` demands at least
one character). -/
theorem C2_counterexample :
    isValidDependencyName "" = false ∧ "".data.all isPackageNameChar = true := by
  decide

/-- C2 (amended): the name validator accepts a name iff it is non-empty
and every character is in `[A-Za-z0-9@._ / -]`; in particular `../evil`
and `@scope/../evil` are accepted.  A dependency whose name is rejected
gets a failed result with message exactly
`Invalid dependency name: <name>`, spawns no process, and the loop
continues with the remaining dependencies. -/
theorem C2_name_validation :
    (∀ name : String, isValidDependencyName name = true ↔
        (name.data ≠ [] ∧ ∀ c ∈ name.data, specNameChar c = true)) ∧
    isValidDependencyName "../evil" = true ∧
    isValidDependencyName "@scope/../evil" = true ∧
    (∀ (g : List String) (v : Bool) (env : ExecEnv) (dep : Dependency),
        isValidDependencyName dep.name = false →
        depEntry g v env dep =
          ({ name := dep.name, success := false,
             message := "Invalid dependency name: " ++ dep.name },
           ["Invalid dependency name: " ++ dep.name], [])) ∧
    (∀ (g : List String) (v : Bool) (env : ExecEnv) (dep : Dependency)
        (deps : List Dependency) (logs : List String),
        isValidDependencyName dep.name = false →
        installLoop g v env (dep :: deps) logs =
          .ok ({ name := dep.name, success := false,
                 message := "Invalid dependency name: " ++ dep.name }
                 :: deps.map (fun d => (depEntry g v env d).1),
               logs ++ ("Invalid dependency name: " ++ dep.name)
                 :: deps.flatMap (fun d => (depEntry g v env d).2.1),
               deps.flatMap (fun d => (depEntry g v env d).2.2))) := by
  refine ⟨?_, by decide, by decide, ?_, ?_⟩
  · intro name
    constructor
    · intro h
      obtain ⟨h1, h2⟩ := validName_props name h
      exact ⟨h1, fun c hc => by rw [← pkgchar_eq_specChar c]; exact h2 c hc⟩
    · rintro ⟨h1, h2⟩
      rw [isValidDependencyName, Bool.and_eq_true]
      constructor
      · simpa using h1
      · rw [List.all_eq_true]
        intro c hc
        rw [pkgchar_eq_specChar c]
        exact h2 c hc
  · exact fun g v env dep h => depEntry_invalidName g v env dep h
  · intro g v env dep deps logs h
    rw [installLoop_eq, List.map_cons, List.flatMap_cons, List.flatMap_cons,
      depEntry_invalidName g v env dep h]
    simp [List.append_assoc]

/-- C2 witness: the amended theorem applied to the rejected concrete
name `bad name`. -/
theorem C2_name_validation_witness :
    isValidDependencyName "bad name" = false ∧
    depEntry [] false env0 { name := "bad name", options := .absent, override := none } =
      ({ name := "bad name", success := false,
         message := "Invalid dependency name: " ++ "bad name" },
       ["Invalid dependency name: " ++ "bad name"], []) :=
  ⟨by decide,
   C2_name_validation.2.2.2.1 [] false env0
     { name := "bad name", options := .absent, override := none } (by decide)⟩

/-- C3: a single option token is accepted iff it matches the short-flag
or long-flag shape and holds no disallowed shell metacharacter; the
mixed-case `--Save` is rejected; a token list is valid iff every token
in it is individually valid. -/
theorem C3_token_validator :
    (∀ t : String, (validateOptionTokens [t]).isSome =
        ((SHORT_FLAG t || LONG_FLAG t) && !hasDisallowedChar t)) ∧
    validateOptionTokens ["--Save"] = none ∧
    (∀ toks : List String, (validateOptionTokens toks).isSome = true ↔
        ∀ t ∈ toks, (validateOptionTokens [t]).isSome = true) := by
  have hs : ∀ t : String, (validateOptionTokens [t]).isSome =
      ((SHORT_FLAG t || LONG_FLAG t) && !hasDisallowedChar t) := by
    intro t
    by_cases h : ((SHORT_FLAG t || LONG_FLAG t) && !hasDisallowedChar t) = true
    · rw [validateOptionTokens, if_pos (by simpa using h), h, Option.isSome_some]
    · have h' : ((SHORT_FLAG t || LONG_FLAG t) && !hasDisallowedChar t) = false :=
        Bool.not_eq_true _ ▸ (by simpa using h)
      rw [validateOptionTokens, if_neg (by simpa using h), h', Option.isSome_none]
  refine ⟨hs, by decide, ?_⟩
  intro toks
  by_cases h : (toks.all fun token =>
      (SHORT_FLAG token || LONG_FLAG token) && !hasDisallowedChar token) = true
  · rw [validateOptionTokens, if_pos h]
    exact iff_of_true rfl (fun t ht => by
      rw [hs t]; exact List.all_eq_true.mp h t ht)
  · rw [validateOptionTokens, if_neg h]
    refine iff_of_false (by simp) (fun hall => h ?_)
    rw [List.all_eq_true]
    intro t ht
    rw [← hs t]
    exact hall t ht

/-- C3 witness: the list-validity equivalence applied to the concrete
token list `[--save-dev, -D]` and its member `--save-dev`. -/
theorem C3_token_validator_witness :
    (validateOptionTokens ["--save-dev", "-D"]).isSome = true ∧
    (validateOptionTokens ["--save-dev"]).isSome = true :=
  ⟨by decide,
   (C3_token_validator.2.2 ["--save-dev", "-D"]).mp (by decide) "--save-dev" (by decide)⟩

/-- C10: every token matching the short-flag or long-flag shape contains
no disallowed metacharacter, so the validator's acceptance is equivalent
to the shape test alone. -/
theorem C10_shape_implies_metachar_free :
    (∀ t : String, (SHORT_FLAG t || LONG_FLAG t) = true → hasDisallowedChar t = false) ∧
    (∀ toks : List String, validateOptionTokens toks =
        (if toks.all (fun t => SHORT_FLAG t || LONG_FLAG t) then some toks else none)) := by
  have hmain : ∀ t : String, (SHORT_FLAG t || LONG_FLAG t) = true →
      hasDisallowedChar t = false := by
    intro t ht
    by_contra hcon
    rw [Bool.not_eq_false, hasDisallowedChar, List.any_eq_true] at hcon
    obtain ⟨c, hc, hcd⟩ := hcon
    exact absurd hcd (by rw [flagchar_not_disallowed c (flagShape_chars t ht c hc)]; simp)
  refine ⟨hmain, ?_⟩
  intro toks
  rw [validateOptionTokens]
  by_cases h : (toks.all fun t => SHORT_FLAG t || LONG_FLAG t) = true
  · have hall : (toks.all fun token =>
        (SHORT_FLAG token || LONG_FLAG token) && !hasDisallowedChar token) = true := by
      rw [List.all_eq_true]
      intro t ht
      have hsh := List.all_eq_true.mp h t ht
      simp [hsh, hmain t hsh]
    rw [if_pos hall, if_pos h]
  · have hall : ¬((toks.all fun token =>
        (SHORT_FLAG token || LONG_FLAG token) && !hasDisallowedChar token) = true) := by
      intro hcon
      apply h
      rw [List.all_eq_true] at hcon ⊢
      intro t ht
      have h2 := hcon t ht
      rw [Bool.and_eq_true] at h2
      exact h2.1
    rw [if_neg hall, if_neg h]

/-- C10 witness: the metacharacter-freedom implication applied to the
concrete shape-matching tokens `-D` and `--save-dev`. -/
theorem C10_shape_implies_metachar_free_witness :
    (SHORT_FLAG "-D" || LONG_FLAG "-D") = true ∧
    hasDisallowedChar "-D" = false ∧
    hasDisallowedChar "--save-dev" = false :=
  ⟨by decide, C10_shape_implies_metachar_free.1 "-D" (by decide),
   C10_shape_implies_metachar_free.1 "--save-dev" (by decide)⟩

end DynamicInstaller

namespace DynamicInstaller

/-- C4: with `override` true the effective options are the validated
dependency options alone — for every global-options list, valid or not;
with `override` false (or omitted) they are the validated global options
followed by the validated dependency options, and if either validation
fails the dependency fails with message exactly
`Invalid options for dependency: <name>` and spawns no process.  Empty
option lists validate to the empty (valid) token list. -/
theorem C4_effective_options :
    (∀ (g : List String) (v : Bool) (env : ExecEnv) (dep : Dependency) (vd : List String),
        isValidDependencyName dep.name = true →
        dep.override.getD false = true →
        parseAndValidateOptions dep.options = some vd →
        depEntry g v env dep = spawnEntry dep.name vd env) ∧
    (∀ (g : List String) (v : Bool) (env : ExecEnv) (dep : Dependency) (vg vd : List String),
        isValidDependencyName dep.name = true →
        dep.override.getD false = false →
        validateOptionTokens g = some vg →
        parseAndValidateOptions dep.options = some vd →
        depEntry g v env dep = spawnEntry dep.name (vg ++ vd) env) ∧
    (∀ (g : List String) (v : Bool) (env : ExecEnv) (dep : Dependency),
        isValidDependencyName dep.name = true →
        ((dep.override.getD false = true ∧ parseAndValidateOptions dep.options = none) ∨
         (dep.override.getD false = false ∧
           (validateOptionTokens g = none ∨ parseAndValidateOptions dep.options = none))) →
        depEntry g v env dep =
          ({ name := dep.name, success := false,
             message := "Invalid options for dependency: " ++ dep.name },
           ["Invalid options for dependency: " ++ dep.name], [])) ∧
    validateOptionTokens [] = some [] ∧
    parseAndValidateOptions (.arr []) = some [] ∧
    parseAndValidateOptions .absent = some [] :=
  ⟨fun g v env dep vd h1 h2 h3 => depEntry_override_spawn g v env dep vd h1 h2 h3,
   fun g v env dep vg vd h1 h2 h3 h4 => depEntry_noOverride_spawn g v env dep vg vd h1 h2 h3 h4,
   fun g v env dep h1 h2 => depEntry_invalidOptions g v env dep h1 h2,
   by decide, by decide, rfl⟩

/-- C4 witness: an overriding dependency with valid own options is
spawned from its own options even under an invalid global-options list,
while the same dependency without `override` fails on that list. -/
theorem C4_effective_options_witness :
    isValidDependencyName "lodash" = true ∧
    validateOptionTokens ["bad;opt"] = none ∧
    depEntry ["bad;opt"] false env0
        { name := "lodash", options := .arr ["--save-dev"], override := some true } =
      spawnEntry "lodash" ["--save-dev"] env0 ∧
    depEntry ["bad;opt"] false env0
        { name := "lodash", options := .arr ["--save-dev"], override := none } =
      ({ name := "lodash", success := false,
         message := "Invalid options for dependency: " ++ "lodash" },
       ["Invalid options for dependency: " ++ "lodash"], []) :=
  ⟨by decide, by decide,
   C4_effective_options.1 ["bad;opt"] false env0
     { name := "lodash", options := .arr ["--save-dev"], override := some true }
     ["--save-dev"] (by decide) rfl (by decide),
   C4_effective_options.2.2.1 ["bad;opt"] false env0
     { name := "lodash", options := .arr ["--save-dev"], override := none }
     (by decide) (Or.inr ⟨rfl, Or.inl (by decide)⟩)⟩

/-- C8: the spawned command string is the install verb, the validated
name and the effective options joined by single spaces (no trailing
whitespace when there are no options), with the effective options being
exactly the global options followed by the dependency options when not
overriding — no deduplication or reordering. -/
theorem C8_command_string :
    (∀ (name : String) (opts : List String),
        isValidDependencyName name = true →
        (∀ t ∈ opts, (SHORT_FLAG t || LONG_FLAG t) = true) →
        jsTrim (joinSp ("npm install" :: name :: opts)) =
          specCommand "npm install" name opts) ∧
    (∀ (g : List String) (v : Bool) (env : ExecEnv) (dep : Dependency) (vg vd : List String),
        isValidDependencyName dep.name = true →
        validateOptionTokens g = some vg →
        parseAndValidateOptions dep.options = some vd →
        (depEntry g v env dep).2.2 =
          [specCommand "npm install" dep.name
            (if dep.override.getD false then vd else vg ++ vd)]) := by
  refine ⟨command_eq_specCommand, ?_⟩
  intro g v env dep vg vd hname hvg hvd
  have hflags : ∀ t ∈ vg ++ vd, (SHORT_FLAG t || LONG_FLAG t) = true := by
    intro t ht
    rcases List.mem_append.mp ht with h | h
    · exact validateOptionTokens_flags g vg hvg t h
    · exact parseAndValidateOptions_flags dep.options vd hvd t h
  cases hov : dep.override.getD false with
  | false =>
    rw [depEntry_noOverride_spawn g v env dep vg vd hname hov hvg hvd]
    simp only [spawnEntry]
    rw [command_eq_specCommand dep.name (vg ++ vd) hname hflags]
    simp
  | true =>
    rw [depEntry_override_spawn g v env dep vd hname hov hvd]
    simp only [spawnEntry]
    rw [command_eq_specCommand dep.name vd hname
      (fun t ht => hflags t (List.mem_append.mpr (Or.inr ht)))]
    simp

/-- C8 witness: the command-string equation applied to the concrete name
`lodash` with options `[--save-dev]` and with no options. -/
theorem C8_command_string_witness :
    isValidDependencyName "lodash" = true ∧
    jsTrim (joinSp ["npm install", "lodash", "--save-dev"]) =
      specCommand "npm install" "lodash" ["--save-dev"] ∧
    jsTrim (joinSp ["npm install", "lodash"]) = specCommand "npm install" "lodash" [] :=
  ⟨by decide,
   C8_command_string.1 "lodash" ["--save-dev"] (by decide) (by decide),
   C8_command_string.1 "lodash" [] (by decide) (by decide)⟩

/-- C7: each process invocation appends exactly the five fixed log lines
in order (command, stdout capture, stderr capture, error description or
`none`, summary with success flag and message), and the run's log holds
exactly one `command:`-prefixed line per spawned process, in spawn
order — none for validation-rejected dependencies. -/
theorem C7_log_lines :
    (∀ (cmd : String) (v : Bool) (logs : List String) (env : ExecEnv),
        (executeCommand cmd v logs env).2 =
          logs ++
            ["command: " ++ cmd,
             "stdout: " ++ (env cmd).stdout,
             "stderr: " ++ (env cmd).stderr,
             "error: " ++ (match (env cmd).error with | some e => e | none => "none"),
             "success: " ++ toString (env cmd).error.isNone ++ ", message: " ++
               execMessage cmd env]) ∧
    (∀ (opts : InstallOptions) (env : ExecEnv) (r : InstallationResult),
        installDependencies opts env = Except.ok r →
        r.logsArray.filter (fun l => isCommandLine l) =
          (spawnedCommands opts env).map (fun c => "command: " ++ c)) := by
  constructor
  · intro cmd v logs env
    rw [executeCommand_eq]
    rfl
  · intro opts env r h
    rw [installDependencies_eq, Except.ok.injEq] at h
    subst h
    rw [spawnedCommands_eq]
    exact filter_flatMap_logs _ _ env opts.dependencies

/-- C7 witness: the filtered-log equation applied to the concrete
configuration `opts0` (one spawned process, one rejected dependency). -/
theorem C7_log_lines_witness :
    installDependencies opts0 env0 = Except.ok (runResult opts0 env0) ∧
    (runResult opts0 env0).logsArray.filter (fun l => isCommandLine l) =
      (spawnedCommands opts0 env0).map (fun c => "command: " ++ c) :=
  ⟨rfl, C7_log_lines.2 opts0 env0 _ rfl⟩

/-- C9 counterexample: the logger appends the message verbatim — for the
message `x` the appended line is exactly `x`, a digit-free single
character, so it carries no timestamp. -/
theorem C9_counterexample :
    logMessage "x" true [] = ["x"] ∧ "x".data.any Char.isDigit = false := by
  decide

/-- C9 (amended): each logger call appends exactly one line to the run's
ordered log — the message verbatim; no timestamp is added. -/
theorem C9_logger_one_line (m : String) (v : Bool) (logs : List String) :
    logMessage m v logs = logs ++ [m] ∧
    (logMessage m v logs).length = logs.length + 1 := by
  constructor
  · rfl
  · simp [logMessage]

end DynamicInstaller
